import Mathlib

/-!
Verification of the local-discord repository: a shallow embedding of the
tag parser (src/utils/tags.ts), the Zustand entity store (store.ts) and the
localStorage persistence layer (storage.ts), together with proofs of the
specification's claims about them.

Modelling conventions:
* JS strings are Lean `String`s; where character-level work is needed we use
  the underlying `List Char` (`String.data`).  JS `toLowerCase` is modelled
  by `Char.toLower` (the ASCII mapping), which agrees with JS on every
  character the tag grammar admits (ASCII letters, digits, `_`, `/`, Hangul
  syllables, none of which have non-ASCII case mappings).
* JS timestamps (`Date.now()`) are `Nat` parameters threaded explicitly.
* Fresh UUIDs are explicit `String` parameters.
* The JS regex engine's statefulness (a `g`-flagged regex's `lastIndex`)
  is modelled by explicit state passing where it matters (`hasTags`).
* `Array.prototype.sort` (stable comparison sort) is modelled by a
  structural insertion sort; the claims only concern sortedness and the
  underlying multiset, which any comparison sort satisfies.
-/

/-- Character class of the tag regex `#([\w가-힣/]+)`: ASCII word characters
(`\w` = letters, digits, underscore), the forward slash, and the Hangul
syllable range U+AC00..U+D7A3. -/
def isTagChar (c : Char) : Bool :=
  decide (('a' ≤ c ∧ c ≤ 'z') ∨ ('A' ≤ c ∧ c ≤ 'Z') ∨ ('0' ≤ c ∧ c ≤ '9') ∨
    c = '_' ∨ c = '/' ∨ (0xAC00 ≤ c.toNat ∧ c.toNat ≤ 0xD7A3))

/-- One left-to-right pass of the global regex `#([\w가-힣/]+)` over the
character list, returning the captured groups (the token after `#`) of every
match in order, as `content.matchAll(TAG_REGEX)` yields them.  A match needs
a `#` immediately followed by at least one tag character and extends
greedily.  `fuel` bounds the recursion; each step consumes at least one
character, so `fuel = length` suffices. -/
def tagMatchesFuel : Nat → List Char → List (List Char)
  | 0, _ => []
  | _ + 1, [] => []
  | fuel + 1, c :: rest =>
    if c = '#' ∧ isTagChar (rest.headD ' ') then
      rest.takeWhile isTagChar :: tagMatchesFuel fuel (rest.dropWhile isTagChar)
    else
      tagMatchesFuel fuel rest

/-- All regex matches (captured tokens) of the tag pattern in a string. -/
def tagMatches (content : String) : List (List Char) :=
  tagMatchesFuel content.data.length content.data

/-- `parseTags` from src/utils/tags.ts: iterate over the matches, lowercase
each captured token, and insert it into a JS `Set` (which keeps insertion
order and drops duplicates); finally `Array.from` the set. -/
def parseTags (content : String) : List String :=
  (tagMatches content).foldl
    (fun acc t =>
      let t' : String := ⟨t.map Char.toLower⟩
      if t' ∈ acc then acc else acc ++ [t'])
    []

/-- The kind of a span produced by the content segmenter
(`type: 'text' | 'tag'` in ContentPart). -/
inductive PartKind where
  | text
  | tag
deriving DecidableEq

/-- `ContentPart` from src/utils/tags.ts: a span of the original content,
either plain text or a `#tag` occurrence.  `content` is the raw text of the
span (for a tag span, including the leading `#`); `tag` is the lowercased
token for tag spans. -/
structure ContentPart where
  type : PartKind
  content : List Char
  tag : Option (List Char)
deriving DecidableEq

/-- The text span for a pending (reversed) accumulator, if nonempty: the
segmenter only pushes a text part for a nonempty run. -/
def flushText (acc : List Char) : List ContentPart :=
  if acc.isEmpty then [] else [⟨PartKind.text, acc.reverse, none⟩]

/-- The `regex.exec` loop of `parseContentWithTags`: walk the characters,
accumulating the current plain-text run (reversed) in `acc`; at each match
emit the pending text span, the tag span, and continue after the match.
`fuel = length` suffices (each step consumes at least one character); the
fuel-exhausted case is unreachable under that bound. -/
def segmentFuel : Nat → List Char → List Char → List ContentPart
  | 0, acc, cs => flushText acc ++ (if cs.isEmpty then [] else [⟨PartKind.text, cs, none⟩])
  | _ + 1, acc, [] => flushText acc
  | fuel + 1, acc, c :: rest =>
    if c = '#' ∧ isTagChar (rest.headD ' ') then
      flushText acc ++
        ⟨PartKind.tag, c :: rest.takeWhile isTagChar,
          some ((rest.takeWhile isTagChar).map Char.toLower)⟩ ::
          segmentFuel fuel [] (rest.dropWhile isTagChar)
    else
      segmentFuel fuel (c :: acc) rest

/-- `parseContentWithTags` from src/utils/tags.ts. -/
def parseContentWithTags (content : String) : List ContentPart :=
  segmentFuel content.data.length [] content.data

/-- Concatenation of the raw text (`content` field) of all spans, in order. -/
def partsConcat (ps : List ContentPart) : List Char :=
  (ps.map ContentPart.content).flatten

/-- End position of the first match of the tag pattern in the given suffix,
where `pos` is the absolute index of the suffix's head; `none` if no match. -/
def findTagEnd : List Char → Nat → Option Nat
  | [], _ => none
  | c :: rest, pos =>
    if c = '#' ∧ isTagChar (rest.headD ' ') then
      some (pos + 1 + (rest.takeWhile isTagChar).length)
    else
      findTagEnd rest (pos + 1)

/-- `hasTags` from src/utils/tags.ts, with the hidden regex state made
explicit.  `TAG_REGEX` is declared at module level with the `g` flag, so
`TAG_REGEX.test(content)` starts searching at the regex's persisted
`lastIndex`; on a match it returns `true` and stores the match's end
position in `lastIndex`, otherwise it returns `false` and resets
`lastIndex` to 0.  The result pairs the returned boolean with the new
`lastIndex`. -/
def hasTags (content : String) (lastIndex : Nat) : Bool × Nat :=
  match findTagEnd (content.data.drop lastIndex) lastIndex with
  | some e => (true, e)
  | none => (false, 0)

/-- `Server` from src/types.ts. -/
structure Server where
  id : String
  name : String
  icon : Option String
  createdAt : Nat
deriving DecidableEq

/-- `Channel` from src/types.ts. -/
structure Channel where
  id : String
  serverId : String
  name : String
  createdAt : Nat
deriving DecidableEq

/-- `Message` from src/types.ts.  The optional fields model the absence of
the corresponding JS properties (`undefined`). -/
structure Message where
  id : String
  channelId : String
  content : String
  createdAt : Nat
  editedAt : Option Nat
  tags : Option (List String)
  isPinned : Option Bool
  isBookmarked : Option Bool
deriving DecidableEq

/-- `SearchResult` from src/types.ts: a matching message together with its
resolved channel and server. -/
structure SearchResult where
  message : Message
  channel : Channel
  server : Server
deriving DecidableEq

/-- The store state (the data and selection fields of the Zustand `AppStore`
that the entity operations and derived views read or write; pure UI toggles
are omitted).  The store's synchronous `saveData` calls persist a snapshot of
exactly these collections and do not affect the in-memory state, so they do
not appear in the state-transition model. -/
structure AppState where
  servers : List Server
  channels : List Channel
  messages : List Message
  selectedServerId : Option String
  selectedChannelId : Option String
  searchQuery : String
deriving DecidableEq

/-- The value stored in a message's `tags` field for the given content:
`tags.length > 0 ? tags : undefined` with `tags = parseTags(content)`. -/
def tagsField (content : String) : Option (List String) :=
  let tags := parseTags content
  if tags.isEmpty then none else some tags

/-- `addMessage(channelId, content)` from the store; `now` is `Date.now()`
and `newId` the fresh `uuidv4()`. -/
def addMessage (now : Nat) (newId channelId content : String) (s : AppState) : AppState :=
  { s with messages := s.messages ++
      [{ id := newId, channelId := channelId, content := content, createdAt := now,
         editedAt := none, tags := tagsField content, isPinned := none, isBookmarked := none }] }

/-- `updateMessage(id, content)` from the store; `now` is `Date.now()`. -/
def updateMessage (now : Nat) (id content : String) (s : AppState) : AppState :=
  { s with messages := s.messages.map (fun m =>
      if m.id = id then
        { m with content := content, editedAt := some now, tags := tagsField content }
      else m) }

/-- `deleteServer(id)` from the store: drop the server, every channel of the
server, and every message in one of those channels; clear a selection that
pointed at the deleted server or at one of the deleted channels.  The JS
guard is `channelIds.includes(state.selectedChannelId || '')`, hence the
`getD ""`. -/
def deleteServer (id : String) (s : AppState) : AppState :=
  let channelIds := (s.channels.filter (fun c => c.serverId = id)).map Channel.id
  { s with
    servers := s.servers.filter (fun sv => sv.id ≠ id),
    channels := s.channels.filter (fun c => c.serverId ≠ id),
    messages := s.messages.filter (fun m => ¬ m.channelId ∈ channelIds),
    selectedServerId := if s.selectedServerId = some id then none else s.selectedServerId,
    selectedChannelId :=
      if (s.selectedChannelId.getD "") ∈ channelIds then none else s.selectedChannelId }

/-- `togglePin(id)` from the store: `{...m, isPinned: !m.isPinned}` on the
matching message (`!undefined` is `true`). -/
def togglePin (id : String) (s : AppState) : AppState :=
  { s with messages := s.messages.map (fun m =>
      if m.id = id then { m with isPinned := some (! m.isPinned.getD false) } else m) }

/-- `toggleBookmark(id)` from the store. -/
def toggleBookmark (id : String) (s : AppState) : AppState :=
  { s with messages := s.messages.map (fun m =>
      if m.id = id then { m with isBookmarked := some (! m.isBookmarked.getD false) } else m) }

/-- Structural insertion sort modelling `Array.prototype.sort` with a
boolean comparison: insert `x` before the first element `y` with `le x y`. -/
def insertBy (le : α → α → Bool) (x : α) : List α → List α
  | [] => [x]
  | y :: ys => if le x y then x :: y :: ys else y :: insertBy le x ys

/-- Comparison sort over a list, via `insertBy`. -/
def sortBy (le : α → α → Bool) : List α → List α
  | [] => []
  | x :: xs => insertBy le x (sortBy le xs)

/-- JS whitespace for `String.prototype.trim` (the ASCII part; the claims
never involve the exotic Unicode whitespace code points). -/
def isJsWs (c : Char) : Bool :=
  c = ' ' ∨ c = '\t' ∨ c = '\n' ∨ c = '\r' ∨ c = '\x0b' ∨ c = '\x0c'

/-- `String.prototype.trim`: drop leading and trailing whitespace. -/
def jsTrim (cs : List Char) : List Char :=
  ((cs.dropWhile isJsWs).reverse.dropWhile isJsWs).reverse

/-- `needle` is a prefix of `hay` (character-wise). -/
def startsWithL : List Char → List Char → Bool
  | [], _ => true
  | _ :: _, [] => false
  | a :: as, b :: bs => a = b && startsWithL as bs

/-- `String.prototype.includes`: `needle` occurs contiguously in `hay`. -/
def containsSub (needle : List Char) : List Char → Bool
  | [] => startsWithL needle []
  | c :: rest => startsWithL needle (c :: rest) || containsSub needle rest

/-- Descending-by-`createdAt` comparison on search results
(`(a, b) => b.message.createdAt - a.message.createdAt`). -/
def leDescSR (a b : SearchResult) : Bool :=
  decide (b.message.createdAt ≤ a.message.createdAt)

/-- Ascending-by-`createdAt` comparison on messages. -/
def leAscMsg (a b : Message) : Bool :=
  decide (a.createdAt ≤ b.createdAt)

/-- Descending-by-`createdAt` comparison on messages. -/
def leDescMsg (a b : Message) : Bool :=
  decide (b.createdAt ≤ a.createdAt)

/-- `getSearchResults()` from the store: lowercase and trim the query;
an empty trimmed query returns no results; otherwise collect, in message
order, each message whose lowercased content contains the query, resolved
against its channel and that channel's server (skipping the message when
either lookup fails), and sort descending by creation time. -/
def getSearchResults (s : AppState) : List SearchResult :=
  let query := jsTrim (s.searchQuery.data.map Char.toLower)
  if query.isEmpty then []
  else
    sortBy leDescSR (s.messages.filterMap (fun m =>
      if containsSub query (m.content.data.map Char.toLower) then
        match s.channels.find? (fun c => c.id = m.channelId) with
        | some c =>
          match s.servers.find? (fun sv => sv.id = c.serverId) with
          | some sv => some ⟨m, c, sv⟩
          | none => none
        | none => none
      else none))

/-- `getPinnedMessages()` from the store: pinned messages of the selected
channel, ascending by creation time. -/
def getPinnedMessages (s : AppState) : List Message :=
  sortBy leAscMsg (s.messages.filter (fun m =>
    m.isPinned.getD false && s.selectedChannelId = some m.channelId))

/-- `getBookmarkedMessages()` from the store: all bookmarked messages,
descending by creation time. -/
def getBookmarkedMessages (s : AppState) : List Message :=
  sortBy leDescMsg (s.messages.filter (fun m => m.isBookmarked.getD false))

/-- A create or edit step on the message collection (the operations claim
C1 quantifies over). -/
inductive MsgOp where
  | add (now : Nat) (newId channelId content : String)
  | update (now : Nat) (id content : String)

/-- Apply one message operation to the store. -/
def applyMsgOp : MsgOp → AppState → AppState
  | .add now newId channelId content, s => addMessage now newId channelId content s
  | .update now id content, s => updateMessage now id content s

/-- Apply a sequence of message operations, left to right. -/
def applyMsgOps (ops : List MsgOp) (s : AppState) : AppState :=
  ops.foldl (fun s op => applyMsgOp op s) s

/-- The tag invariant: every stored message's `tags` field is exactly what
re-parsing its current content yields (and absent when that is empty). -/
def TagsOk (s : AppState) : Prop :=
  ∀ m ∈ s.messages, m.tags = tagsField m.content

/-- `StorageData` from src/types.ts as it arrives from `JSON.parse`: each
collection property (and `version`) may be absent on a hand-crafted payload,
which is what `importData`'s structural check probes
(`!data.servers || !data.channels || !data.messages`). -/
structure StorageData where
  servers : Option (List Server)
  channels : Option (List Channel)
  messages : Option (List Message)
  version : Option Int
deriving DecidableEq

/-- `getDefaultData()` from src/utils/storage.ts: the seeded snapshot with
one default server, one default channel and one welcome message; `now` is
`Date.now()`. -/
def getDefaultData (now : Nat) : StorageData :=
  { servers := some [{ id := "default-server", name := "내 서버", icon := some "🏠",
                       createdAt := now }],
    channels := some [{ id := "default-channel", serverId := "default-server",
                        name := "general", createdAt := now }],
    messages := some [{ id := "welcome-message", channelId := "default-channel",
                        content := "로컬 Discord에 오신 것을 환영합니다! 👋",
                        createdAt := now, editedAt := none, tags := none,
                        isPinned := none, isBookmarked := none }],
    version := some 1 }

/-- The migration guard `data.version < CURRENT_VERSION` with
`CURRENT_VERSION = 1`; on a payload without a `version` property the JS
comparison `undefined < 1` is `false`. -/
def versionLt (d : StorageData) : Bool :=
  match d.version with
  | some v => decide (v < 1)
  | none => false

/-- `loadData()` from src/utils/storage.ts.  The external collaborators are
passed in: `parse` models `JSON.parse` on the stored string (`none` when it
throws), `ser` models `JSON.stringify`, `slot` is the current content of the
`localStorage` key, and `now` is `Date.now()`.  The result is the returned
snapshot paired with the content of the storage key afterwards.  With no
stored value, the seeded default is saved and returned; a parse failure is
caught and the seeded default returned with the storage key untouched; an
old-version payload is stamped to the current version and re-saved;
otherwise the parsed payload is returned as-is. -/
def loadData (parse : String → Option StorageData) (ser : StorageData → String)
    (now : Nat) (slot : Option String) : StorageData × Option String :=
  match slot with
  | none =>
    let d := getDefaultData now
    (d, some (ser d))
  | some raw =>
    match parse raw with
    | none => (getDefaultData now, some raw)
    | some data =>
      if versionLt data then
        let d := { data with version := some 1 }
        (d, some (ser d))
      else (data, some raw)

/-- `importData(file)` from src/utils/storage.ts, after the file has been
read to the text `content`: parse it (`none` models a `JSON.parse` throw),
reject when parsing fails or any of the three collection properties is
absent, otherwise save and resolve with the parsed snapshot.  The result
pairs the promise outcome with the content of the storage key afterwards. -/
def importData (parse : String → Option StorageData) (ser : StorageData → String)
    (content : String) (slot : Option String) : Except Unit StorageData × Option String :=
  match parse content with
  | none => (Except.error (), slot)
  | some data =>
    if data.servers.isSome && data.channels.isSome && data.messages.isSome then
      (Except.ok data, some (ser data))
    else
      (Except.error (), slot)

/-- First-occurrence deduplication: keep each element's earliest occurrence,
in order.  This is the order/duplicate behaviour of a JS `Set` filled by
iteration, used below to characterise `parseTags`. -/
def dedupFirst [DecidableEq α] : List α → List α
  | [] => []
  | x :: xs => x :: dedupFirst (xs.filter (fun y => y ≠ x))
termination_by l => l.length
decreasing_by simpa using Nat.lt_succ_of_le (List.length_filter_le _ _)

theorem insertBy_perm (le : α → α → Bool) (x : α) (l : List α) :
    List.Perm (insertBy le x l) (x :: l) := by
  induction l with
  | nil => exact List.Perm.refl _
  | cons y ys ih =>
    rw [insertBy]
    by_cases h : le x y = true
    · rw [if_pos h]
    · rw [if_neg h]
      exact (ih.cons y).trans (List.Perm.swap x y ys)

theorem sortBy_perm (le : α → α → Bool) (l : List α) : List.Perm (sortBy le l) l := by
  induction l with
  | nil => exact List.Perm.refl _
  | cons x xs ih =>
    rw [sortBy]
    exact (insertBy_perm le x (sortBy le xs)).trans (ih.cons x)

theorem mem_sortBy {le : α → α → Bool} {l : List α} {a : α} :
    a ∈ sortBy le l ↔ a ∈ l :=
  (sortBy_perm le l).mem_iff

theorem pairwise_insertBy {le : α → α → Bool}
    (htr : ∀ a b c, le a b = true → le b c = true → le a c = true)
    (hto : ∀ a b, le a b = true ∨ le b a = true)
    (x : α) {l : List α} (h : l.Pairwise (fun a b => le a b = true)) :
    (insertBy le x l).Pairwise (fun a b => le a b = true) := by
  induction l with
  | nil => simp [insertBy]
  | cons y ys ih =>
    rw [List.pairwise_cons] at h
    obtain ⟨hy, hys⟩ := h
    rw [insertBy]
    by_cases hxy : le x y = true
    · rw [if_pos hxy]
      refine List.pairwise_cons.mpr ⟨?_, List.pairwise_cons.mpr ⟨hy, hys⟩⟩
      intro b hb
      rcases List.mem_cons.mp hb with rfl | hb
      · exact hxy
      · exact htr x y b hxy (hy b hb)
    · rw [if_neg hxy]
      refine List.pairwise_cons.mpr ⟨?_, ih hys⟩
      intro b hb
      rcases List.mem_cons.mp ((insertBy_perm le x ys).mem_iff.mp hb) with rfl | hb
      · rcases hto y b with h | h
        · exact h
        · exact absurd h hxy
      · exact hy b hb

theorem pairwise_sortBy {le : α → α → Bool}
    (htr : ∀ a b c, le a b = true → le b c = true → le a c = true)
    (hto : ∀ a b, le a b = true ∨ le b a = true) (l : List α) :
    (sortBy le l).Pairwise (fun a b => le a b = true) := by
  induction l with
  | nil => simp [sortBy]
  | cons x xs ih =>
    rw [sortBy]
    exact pairwise_insertBy htr hto x ih

theorem mem_dedupFirst [DecidableEq α] {l : List α} {a : α} :
    a ∈ dedupFirst l ↔ a ∈ l := by
  induction l using dedupFirst.induct with
  | case1 => simp [dedupFirst]
  | case2 x xs ih =>
    rw [dedupFirst]
    constructor
    · intro h
      rcases List.mem_cons.mp h with rfl | h
      · exact List.mem_cons_self _ _
      · exact List.mem_cons_of_mem _ (List.mem_of_mem_filter (ih.mp h))
    · intro h
      rcases List.mem_cons.mp h with rfl | h
      · exact List.mem_cons_self _ _
      · by_cases hax : a = x
        · exact hax ▸ List.mem_cons_self _ _
        · exact List.mem_cons_of_mem _
            (ih.mpr (List.mem_filter.mpr ⟨h, by simpa using hax⟩))

theorem nodup_dedupFirst [DecidableEq α] (l : List α) : (dedupFirst l).Nodup := by
  induction l using dedupFirst.induct with
  | case1 => simp [dedupFirst]
  | case2 x xs ih =>
    rw [dedupFirst]
    refine List.nodup_cons.mpr ⟨?_, ih⟩
    intro hx
    have := List.mem_filter.mp (mem_dedupFirst.mp hx)
    simp at this

theorem sublist_dedupFirst [DecidableEq α] (l : List α) : List.Sublist (dedupFirst l) l := by
  induction l using dedupFirst.induct with
  | case1 => simp [dedupFirst]
  | case2 x xs ih =>
    rw [dedupFirst]
    exact (ih.trans (List.filter_sublist xs)).cons₂ x

theorem indexOf_filter_lt [DecidableEq α] (p : α → Bool) (l : List α) (a b : α)
    (ha : a ∈ l.filter p) (hb : b ∈ l.filter p)
    (h : (l.filter p).indexOf a < (l.filter p).indexOf b) :
    l.indexOf a < l.indexOf b := by
  induction l with
  | nil => simp at ha
  | cons c cs ih =>
    rw [List.filter_cons] at ha hb h
    by_cases hc : p c = true
    · rw [if_pos hc] at ha hb h
      by_cases hac : a = c
      · subst hac
        rw [List.indexOf_cons_self] at h
        have hba : b ≠ a := by
          intro e
          subst e
          rw [List.indexOf_cons_self] at h
          exact Nat.lt_irrefl _ h
        rw [List.indexOf_cons_self, List.indexOf_cons_ne _ (Ne.symm hba)]
        exact Nat.succ_pos _
      · by_cases hbc : b = c
        · subst hbc
          rw [List.indexOf_cons_self] at h
          exact absurd h (Nat.not_lt_zero _)
        · rw [List.indexOf_cons_ne _ (Ne.symm hac), List.indexOf_cons_ne _ (Ne.symm hbc)] at h
          have ha' : a ∈ cs.filter p := by
            rcases List.mem_cons.mp ha with h' | h'
            · exact absurd h' hac
            · exact h'
          have hb' : b ∈ cs.filter p := by
            rcases List.mem_cons.mp hb with h' | h'
            · exact absurd h' hbc
            · exact h'
          rw [List.indexOf_cons_ne _ (Ne.symm hac), List.indexOf_cons_ne _ (Ne.symm hbc)]
          exact Nat.succ_lt_succ (ih ha' hb' (Nat.lt_of_succ_lt_succ h))
    · rw [if_neg hc] at ha hb h
      have hac : a ≠ c := by
        intro e
        exact hc (e ▸ (List.mem_filter.mp ha).2)
      have hbc : b ≠ c := by
        intro e
        exact hc (e ▸ (List.mem_filter.mp hb).2)
      rw [List.indexOf_cons_ne _ (Ne.symm hac), List.indexOf_cons_ne _ (Ne.symm hbc)]
      exact Nat.succ_lt_succ (ih ha hb h)

theorem pairwise_indexOf_dedupFirst [DecidableEq α] (l : List α) :
    (dedupFirst l).Pairwise (fun a b => l.indexOf a < l.indexOf b) := by
  induction l using dedupFirst.induct with
  | case1 => simp [dedupFirst]
  | case2 x xs ih =>
    rw [dedupFirst]
    refine List.pairwise_cons.mpr ⟨?_, ?_⟩
    · intro b hb
      have hbf := List.mem_filter.mp (mem_dedupFirst.mp hb)
      have hbx : b ≠ x := by simpa using hbf.2
      rw [List.indexOf_cons_self, List.indexOf_cons_ne _ (Ne.symm hbx)]
      exact Nat.succ_pos _
    · refine ih.imp_of_mem ?_
      intro a b ha hb hR
      have ha' := mem_dedupFirst.mp ha
      have hb' := mem_dedupFirst.mp hb
      have hax : a ≠ x := by simpa using (List.mem_filter.mp ha').2
      have hbx : b ≠ x := by simpa using (List.mem_filter.mp hb').2
      have := indexOf_filter_lt _ xs a b ha' hb' hR
      rw [List.indexOf_cons_ne _ (Ne.symm hax), List.indexOf_cons_ne _ (Ne.symm hbx)]
      exact Nat.succ_lt_succ this

theorem foldl_dedup [DecidableEq α] (l acc : List α) :
    l.foldl (fun acc t => if t ∈ acc then acc else acc ++ [t]) acc
      = acc ++ dedupFirst (l.filter (fun t => t ∉ acc)) := by
  induction l generalizing acc with
  | nil => simp [dedupFirst]
  | cons x xs ih =>
    rw [List.foldl_cons, List.filter_cons]
    by_cases hx : x ∈ acc
    · rw [if_pos hx, ih, if_neg (by simpa using hx)]
    · rw [if_neg hx, ih, if_pos (by simpa using hx), dedupFirst, List.filter_filter]
      have hf : List.filter (fun t => decide (t ∉ acc ++ [x])) xs
          = List.filter (fun a => decide (a ≠ x) && decide (a ∉ acc)) xs := by
        apply List.filter_congr
        intro t _
        by_cases htx : t = x
        · subst htx
          simp [List.mem_append]
        · by_cases hta : t ∈ acc <;> simp [List.mem_append, htx, hta]
      rw [hf, List.append_assoc, List.singleton_append]

theorem parseTags_eq_dedupFirst (content : String) :
    parseTags content
      = dedupFirst ((tagMatches content).map (fun t => String.mk (t.map Char.toLower))) := by
  have h := List.foldl_map (fun t : List Char => String.mk (t.map Char.toLower))
    (fun (acc : List String) (t' : String) => if t' ∈ acc then acc else acc ++ [t'])
    (tagMatches content) []
  unfold parseTags
  rw [show (fun (acc : List String) (t : List Char) =>
        let t' : String := ⟨t.map Char.toLower⟩
        if t' ∈ acc then acc else acc ++ [t'])
      = (fun (acc : List String) (t : List Char) =>
        if String.mk (t.map Char.toLower) ∈ acc then acc
        else acc ++ [String.mk (t.map Char.toLower)]) from rfl]
  rw [← h, foldl_dedup]
  simp

/-- C2: for every content string, `parseTags` returns exactly the lowercased
regex matches (membership in both directions), without duplicates, as a
subsequence of the match sequence whose elements are ordered by the position
of their first occurrence among the lowercased matches; it returns the empty
list (it is list-valued, never absent) when there is no match; and on
`"#a #b #a"` it returns `["a", "b"]`. -/
theorem parseTags_spec :
    (∀ content : String,
      (∀ t, t ∈ parseTags content ↔
          t ∈ (tagMatches content).map (fun tk => String.mk (tk.map Char.toLower))) ∧
      (parseTags content).Nodup ∧
      List.Sublist (parseTags content)
        ((tagMatches content).map (fun tk => String.mk (tk.map Char.toLower))) ∧
      (parseTags content).Pairwise (fun a b =>
        ((tagMatches content).map (fun tk => String.mk (tk.map Char.toLower))).indexOf a
          < ((tagMatches content).map (fun tk => String.mk (tk.map Char.toLower))).indexOf b) ∧
      ((tagMatches content).map (fun tk => String.mk (tk.map Char.toLower)) = [] →
        parseTags content = [])) ∧
    parseTags "#a #b #a" = ["a", "b"] := by
  constructor
  · intro content
    rw [parseTags_eq_dedupFirst content]
    refine ⟨fun t => mem_dedupFirst, nodup_dedupFirst _, sublist_dedupFirst _,
      pairwise_indexOf_dedupFirst _, ?_⟩
    intro h
    rw [h, dedupFirst]
  · decide

/-- Witness for C2: `"no tags here"` has no match, and `parseTags` returns
the empty list on it. -/
theorem parseTags_spec_witness : parseTags "no tags here" = [] :=
  (parseTags_spec.1 "no tags here").2.2.2.2 (by decide)

/-- C1: starting from any store satisfying the tag invariant (every stored
message's `tags` equals `tagsField` of its content — the deduplicated
lowercased tag list of `parseTags`, absent when empty), any sequence of
`addMessage` and `updateMessage` operations preserves the invariant. -/
theorem tags_invariant (ops : List MsgOp) (s : AppState) (h : TagsOk s) :
    TagsOk (applyMsgOps ops s) := by
  induction ops generalizing s with
  | nil => exact h
  | cons op ops ih =>
    rw [applyMsgOps, List.foldl_cons]
    apply ih
    cases op with
    | add now newId channelId content =>
      intro m hm
      rcases List.mem_append.mp hm with hm | hm
      · exact h m hm
      · rw [List.mem_singleton] at hm
        subst hm
        rfl
    | update now id content =>
      intro m hm
      rcases List.mem_map.mp hm with ⟨m0, hm0, rfl⟩
      by_cases h0 : m0.id = id
      · rw [if_pos h0]
      · rw [if_neg h0]
        exact h m0 hm0

/-- Witness for C1: from the empty store, adding a message with tags and
editing another one to have none keeps every stored `tags` field equal to
the re-parse of its content. -/
theorem tags_invariant_witness :
    TagsOk (applyMsgOps
      [MsgOp.add 1 "m1" "c1" "#A b #a", MsgOp.update 2 "m1" "plain",
       MsgOp.add 3 "m2" "c1" "#x #y"]
      { servers := [], channels := [], messages := [], selectedServerId := none,
        selectedChannelId := none, searchQuery := "" }) :=
  tags_invariant _ _ (by intro m hm; exact absurd hm (List.not_mem_nil m))

theorem partsConcat_append (l₁ l₂ : List ContentPart) :
    partsConcat (l₁ ++ l₂) = partsConcat l₁ ++ partsConcat l₂ := by
  simp [partsConcat]

theorem partsConcat_flushText (acc : List Char) :
    partsConcat (flushText acc) = acc.reverse := by
  unfold flushText
  by_cases h : acc.isEmpty
  · rw [if_pos h]
    rw [List.isEmpty_iff] at h
    simp [partsConcat, h]
  · rw [if_neg h]
    simp [partsConcat]

theorem segmentFuel_concat (fuel : Nat) :
    ∀ (acc cs : List Char), cs.length ≤ fuel →
      partsConcat (segmentFuel fuel acc cs) = acc.reverse ++ cs := by
  induction fuel with
  | zero =>
    intro acc cs h
    have hcs : cs = [] := List.eq_nil_of_length_eq_zero (Nat.le_zero.mp h)
    subst hcs
    rw [show segmentFuel 0 acc [] = flushText acc ++ [] from rfl, List.append_nil,
      partsConcat_flushText, List.append_nil]
  | succ fuel ih =>
    intro acc cs h
    cases cs with
    | nil =>
      rw [segmentFuel, partsConcat_flushText]
      simp
    | cons c rest =>
      rw [List.length_cons] at h
      have hrest : rest.length ≤ fuel := Nat.lt_succ_iff.mp (Nat.lt_of_lt_of_le
        (Nat.lt_succ_of_le (Nat.le_refl _)) h)
      by_cases hc : (c = '#' ∧ isTagChar (rest.headD ' ') = true)
      · rw [segmentFuel, if_pos hc, partsConcat_append, partsConcat_flushText]
        have hdrop : (rest.dropWhile isTagChar).length ≤ fuel :=
          Nat.le_trans ((List.dropWhile_sublist isTagChar (l := rest)).length_le) hrest
        rw [show partsConcat (⟨PartKind.tag, c :: rest.takeWhile isTagChar,
              some ((rest.takeWhile isTagChar).map Char.toLower)⟩ ::
              segmentFuel fuel [] (rest.dropWhile isTagChar))
            = (c :: rest.takeWhile isTagChar) ++
              partsConcat (segmentFuel fuel [] (rest.dropWhile isTagChar)) from by
          simp [partsConcat]]
        rw [ih [] _ hdrop]
        simp [List.takeWhile_append_dropWhile]
      · rw [segmentFuel, if_neg hc, ih (c :: acc) rest hrest]
        simp

/-- C3: concatenating, in order, the raw text (`content` field) of every
span produced by `parseContentWithTags` reconstructs the original content
exactly. -/
theorem parseContentWithTags_roundtrip (content : String) :
    partsConcat (parseContentWithTags content) = content.data := by
  rw [parseContentWithTags, segmentFuel_concat content.data.length [] content.data (Nat.le_refl _)]
  simp

theorem map_eq_self_of (l : List α) (f : α → α) (h : ∀ x ∈ l, f x = x) :
    l.map f = l := by
  induction l with
  | nil => rfl
  | cons x xs ih =>
    rw [List.map_cons, h x (List.mem_cons_self x xs),
      ih (fun y hy => h y (List.mem_cons_of_mem x hy))]

/-- Counterexample to C4 as stated: in a store holding no server but an
orphaned channel whose `serverId` is `"x"`, no server has id `"x"`, yet
`deleteServer "x"` still removes that channel — the entity collections are
not unchanged. -/
theorem deleteServer_counterexample :
    (∀ sv ∈ (AppState.mk [] [⟨"c1", "x", "general", 0⟩] [] none none "").servers,
        sv.id ≠ "x") ∧
    (deleteServer "x" (AppState.mk [] [⟨"c1", "x", "general", 0⟩] [] none none "")).channels
      ≠ (AppState.mk [] [⟨"c1", "x", "general", 0⟩] [] none none "").channels := by
  constructor
  · intro sv hsv
    exact absurd hsv (List.not_mem_nil sv)
  · decide

/-- C4 (amended): `deleteServer id` keeps exactly the servers with a
different id, the channels of other servers, and the messages outside the
deleted channels, as subsequences (so everything else is unchanged, in
order); it clears the server selection if the deleted server was selected
and the channel selection if the selected channel belonged to the deleted
server; and when no server has the id *and no channel references it* (the
referential-integrity invariant; an orphaned channel with that `serverId`
would still be cascaded), the three entity collections are unchanged. -/
theorem deleteServer_spec (s : AppState) (id : String) :
    (∀ sv, sv ∈ (deleteServer id s).servers ↔ sv ∈ s.servers ∧ sv.id ≠ id) ∧
    List.Sublist (deleteServer id s).servers s.servers ∧
    (∀ c, c ∈ (deleteServer id s).channels ↔ c ∈ s.channels ∧ c.serverId ≠ id) ∧
    List.Sublist (deleteServer id s).channels s.channels ∧
    (∀ m, m ∈ (deleteServer id s).messages ↔
        m ∈ s.messages ∧ ¬ ∃ c ∈ s.channels, c.serverId = id ∧ m.channelId = c.id) ∧
    List.Sublist (deleteServer id s).messages s.messages ∧
    (s.selectedServerId = some id → (deleteServer id s).selectedServerId = none) ∧
    (∀ c ∈ s.channels, c.serverId = id → s.selectedChannelId = some c.id →
      (deleteServer id s).selectedChannelId = none) ∧
    ((∀ sv ∈ s.servers, sv.id ≠ id) → (∀ c ∈ s.channels, c.serverId ≠ id) →
      (deleteServer id s).servers = s.servers ∧
      (deleteServer id s).channels = s.channels ∧
      (deleteServer id s).messages = s.messages) := by
  refine ⟨?_, ?_, ?_, ?_, ?_, ?_, ?_, ?_, ?_⟩
  · intro sv
    simp [deleteServer, List.mem_filter]
  · exact List.filter_sublist s.servers
  · intro c
    simp [deleteServer, List.mem_filter]
  · exact List.filter_sublist s.channels
  · intro m
    simp only [deleteServer, List.mem_filter, List.mem_map, List.mem_filter]
    constructor
    · rintro ⟨hm, hpred⟩
      refine ⟨hm, ?_⟩
      rintro ⟨c, hc, hcid, hch⟩
      have : m.channelId ∈ (s.channels.filter (fun c => c.serverId = id)).map Channel.id :=
        List.mem_map.mpr ⟨c, List.mem_filter.mpr ⟨hc, by simpa using hcid⟩, hch.symm⟩
      simp [this] at hpred
    · rintro ⟨hm, hno⟩
      refine ⟨hm, ?_⟩
      simp only [decide_eq_true_eq]
      intro hmem
      rcases List.mem_map.mp hmem with ⟨c, hc, hcid⟩
      rcases List.mem_filter.mp hc with ⟨hcs, hcsid⟩
      exact hno ⟨c, hcs, by simpa using hcsid, hcid.symm⟩
  · exact List.filter_sublist s.messages
  · intro h
    simp [deleteServer, h]
  · intro c hc hcid hsel
    have hmem : (s.selectedChannelId.getD "")
        ∈ (s.channels.filter (fun c => c.serverId = id)).map Channel.id := by
      rw [hsel]
      exact List.mem_map.mpr ⟨c, List.mem_filter.mpr ⟨hc, by simpa using hcid⟩, rfl⟩
    simp [deleteServer, hmem]
  · intro hs hc
    have hcids : (s.channels.filter (fun c => c.serverId = id)).map Channel.id = [] := by
      rw [List.filter_eq_nil_iff.mpr (fun c hcm => by simpa using hc c hcm)]
      rfl
    refine ⟨?_, ?_, ?_⟩
    · exact List.filter_eq_self.mpr (fun sv hsv => by simpa using hs sv hsv)
    · exact List.filter_eq_self.mpr (fun c hcm => by simpa using hc c hcm)
    · show List.filter _ s.messages = s.messages
      apply List.filter_eq_self.mpr
      intro m _
      simp [hcids]

/-- Witness for C4: in a two-server store with a selected doomed server and
channel, deleting the first server keeps exactly the other server's data and
clears both selections; deleting an absent id leaves the collections
unchanged. -/
theorem deleteServer_spec_witness :
    (deleteServer "s1" (AppState.mk
        [⟨"s1", "A", none, 0⟩, ⟨"s2", "B", none, 1⟩]
        [⟨"c1", "s1", "general", 0⟩, ⟨"c2", "s2", "general", 1⟩]
        [⟨"m1", "c1", "hi", 0, none, none, none, none⟩,
         ⟨"m2", "c2", "yo", 1, none, none, none, none⟩]
        (some "s1") (some "c1") "")).selectedChannelId = none ∧
    (deleteServer "zzz" (AppState.mk
        [⟨"s1", "A", none, 0⟩] [⟨"c1", "s1", "general", 0⟩] [] none none "")).channels
      = [⟨"c1", "s1", "general", 0⟩] := by
  constructor
  · exact (deleteServer_spec _ "s1").2.2.2.2.2.2.2.1 ⟨"c1", "s1", "general", 0⟩
      (by decide) (by decide) (by decide)
  · exact ((deleteServer_spec _ "zzz").2.2.2.2.2.2.2.2 (by decide) (by decide)).2.1

/-- C5: `updateMessage` rewrites exactly the matching message, replacing its
content, re-deriving `tags` and stamping `editedAt`, while preserving
`createdAt`, `isPinned`, `isBookmarked`, `id` and `channelId`, and is a
no-op when no message has the id; `togglePin` / `toggleBookmark` flip only
their own boolean on the matching message, leaving every other field —
in particular `editedAt`, `createdAt`, `content` and `tags` — unchanged. -/
theorem message_ops_frame (s : AppState) (now : Nat) (id content : String) :
    ((updateMessage now id content s).messages.length = s.messages.length ∧
      (∀ (i : Nat) (m m' : Message), s.messages[i]? = some m →
        (updateMessage now id content s).messages[i]? = some m' →
        (m.id ≠ id → m' = m) ∧
        (m.id = id → m'.content = content ∧ m'.tags = tagsField content ∧
          m'.editedAt = some now ∧ m'.createdAt = m.createdAt ∧
          m'.isPinned = m.isPinned ∧ m'.isBookmarked = m.isBookmarked ∧
          m'.id = m.id ∧ m'.channelId = m.channelId)) ∧
      ((∀ m ∈ s.messages, m.id ≠ id) → updateMessage now id content s = s)) ∧
    ((togglePin id s).messages.length = s.messages.length ∧
      (∀ (i : Nat) (m m' : Message), s.messages[i]? = some m →
        (togglePin id s).messages[i]? = some m' →
        (m.id ≠ id → m' = m) ∧
        (m.id = id → m'.isPinned = some (! m.isPinned.getD false) ∧
          m'.editedAt = m.editedAt ∧ m'.content = m.content ∧ m'.tags = m.tags ∧
          m'.createdAt = m.createdAt ∧ m'.isBookmarked = m.isBookmarked ∧
          m'.id = m.id ∧ m'.channelId = m.channelId))) ∧
    ((toggleBookmark id s).messages.length = s.messages.length ∧
      (∀ (i : Nat) (m m' : Message), s.messages[i]? = some m →
        (toggleBookmark id s).messages[i]? = some m' →
        (m.id ≠ id → m' = m) ∧
        (m.id = id → m'.isBookmarked = some (! m.isBookmarked.getD false) ∧
          m'.editedAt = m.editedAt ∧ m'.content = m.content ∧ m'.tags = m.tags ∧
          m'.createdAt = m.createdAt ∧ m'.isPinned = m.isPinned ∧
          m'.id = m.id ∧ m'.channelId = m.channelId))) := by
  refine ⟨⟨?_, ?_, ?_⟩, ⟨?_, ?_⟩, ⟨?_, ?_⟩⟩
  · simp [updateMessage]
  · intro i m m' h1 h2
    rw [show (updateMessage now id content s).messages
        = s.messages.map (fun m => if m.id = id then
            { m with content := content, editedAt := some now, tags := tagsField content }
          else m) from rfl, List.getElem?_map, h1] at h2
    have hm' := Option.some.inj h2
    constructor
    · intro hne
      rw [← hm']
      simp only [if_neg hne]
    · intro heq
      rw [← hm']
      simp [if_pos heq]
  · intro hno
    show { s with messages := _ } = s
    rw [map_eq_self_of _ _ (fun m hm => if_neg (hno m hm))]
  · simp [togglePin]
  · intro i m m' h1 h2
    rw [show (togglePin id s).messages
        = s.messages.map (fun m => if m.id = id then
            { m with isPinned := some (! m.isPinned.getD false) } else m) from rfl,
      List.getElem?_map, h1] at h2
    have hm' := Option.some.inj h2
    constructor
    · intro hne
      rw [← hm']
      simp only [if_neg hne]
    · intro heq
      rw [← hm']
      simp [if_pos heq]
  · simp [toggleBookmark]
  · intro i m m' h1 h2
    rw [show (toggleBookmark id s).messages
        = s.messages.map (fun m => if m.id = id then
            { m with isBookmarked := some (! m.isBookmarked.getD false) } else m) from rfl,
      List.getElem?_map, h1] at h2
    have hm' := Option.some.inj h2
    constructor
    · intro hne
      rw [← hm']
      simp only [if_neg hne]
    · intro heq
      rw [← hm']
      simp [if_pos heq]

/-- Witness for C5: editing message `m1` keeps its pin flag and creation
time while replacing content and tags, and pinning `m1` leaves `editedAt`
unset; a no-id edit is the identity. -/
theorem message_ops_frame_witness :
    ((updateMessage 9 "m1" "new #t" (AppState.mk [] []
        [⟨"m1", "c1", "old", 5, none, none, some true, none⟩] none none "")).messages[0]?
      = some ⟨"m1", "c1", "new #t", 5, some 9, some ["t"], some true, none⟩) ∧
    ((togglePin "m1" (AppState.mk [] []
        [⟨"m1", "c1", "old", 5, none, none, none, none⟩] none none "")).messages[0]?
      = some ⟨"m1", "c1", "old", 5, none, none, some true, none⟩) ∧
    updateMessage 9 "zz" "x" (AppState.mk [] []
        [⟨"m1", "c1", "old", 5, none, none, none, none⟩] none none "")
      = AppState.mk [] [] [⟨"m1", "c1", "old", 5, none, none, none, none⟩] none none "" := by
  refine ⟨by decide, by decide, ?_⟩
  exact (message_ops_frame (AppState.mk [] []
      [⟨"m1", "c1", "old", 5, none, none, none, none⟩] none none "") 9 "zz" "x").1.2.2
    (by decide)

theorem toLower_of_isJsWs {c : Char} (h : isJsWs c = true) : Char.toLower c = c := by
  have := of_decide_eq_true h
  rcases this with h | h | h | h | h | h <;> subst h <;> decide

theorem jsTrim_of_all_ws {cs : List Char} (h : ∀ c ∈ cs, isJsWs c = true) :
    jsTrim cs = [] := by
  unfold jsTrim
  rw [List.dropWhile_eq_nil_iff.mpr h]
  rfl

/-- C6: search over the store.  An all-whitespace (or empty) query yields no
results; a result appears exactly for each stored message whose lowercased
content contains the lowercased, trimmed query, paired with the first
channel carrying its `channelId` and the first server carrying that
channel's `serverId` (so a message whose channel or server is missing is
excluded); and the results are sorted descending by the message's creation
time.  Only the message `content` is matched: the membership condition
constrains nothing else. -/
theorem getSearchResults_spec (s : AppState) :
    (s.searchQuery.data.all isJsWs = true → getSearchResults s = []) ∧
    (∀ r, r ∈ getSearchResults s ↔
      (jsTrim (s.searchQuery.data.map Char.toLower) ≠ [] ∧
       r.message ∈ s.messages ∧
       containsSub (jsTrim (s.searchQuery.data.map Char.toLower))
         (r.message.content.data.map Char.toLower) = true ∧
       s.channels.find? (fun c => c.id = r.message.channelId) = some r.channel ∧
       s.servers.find? (fun sv => sv.id = r.channel.serverId) = some r.server)) ∧
    (getSearchResults s).Pairwise
      (fun a b => b.message.createdAt ≤ a.message.createdAt) := by
  have htr : ∀ a b c, leDescSR a b = true → leDescSR b c = true → leDescSR a c = true := by
    intro a b c h1 h2
    exact decide_eq_true_eq.mpr
      (Nat.le_trans (of_decide_eq_true h2) (of_decide_eq_true h1))
  have hto : ∀ a b, leDescSR a b = true ∨ leDescSR b a = true := by
    intro a b
    rcases Nat.le_total b.message.createdAt a.message.createdAt with h | h
    · exact Or.inl (decide_eq_true_eq.mpr h)
    · exact Or.inr (decide_eq_true_eq.mpr h)
  refine ⟨?_, ?_, ?_⟩
  · intro hws
    have hws' : ∀ c ∈ s.searchQuery.data.map Char.toLower, isJsWs c = true := by
      intro c hc
      rcases List.mem_map.mp hc with ⟨c0, hc0, rfl⟩
      rw [toLower_of_isJsWs (List.all_eq_true.mp hws c0 hc0)]
      exact List.all_eq_true.mp hws c0 hc0
    rw [getSearchResults]
    rw [jsTrim_of_all_ws hws']
    rfl
  · intro r
    rw [getSearchResults]
    by_cases hq : (jsTrim (s.searchQuery.data.map Char.toLower)).isEmpty = true
    · rw [if_pos hq]
      rw [List.isEmpty_iff] at hq
      simp [hq]
    · rw [if_neg hq]
      rw [List.isEmpty_iff] at hq
      rw [mem_sortBy, List.mem_filterMap]
      constructor
      · rintro ⟨m, hm, hf⟩
        by_cases hsub : containsSub (jsTrim (s.searchQuery.data.map Char.toLower))
            (m.content.data.map Char.toLower) = true
        · rw [if_pos hsub] at hf
          cases hch : s.channels.find? (fun c => c.id = m.channelId) with
          | none => rw [hch] at hf; exact absurd hf (by simp)
          | some c =>
            rw [hch] at hf
            have hf' : (match s.servers.find? (fun sv => sv.id = c.serverId) with
                | some sv => some (⟨m, c, sv⟩ : SearchResult)
                | none => none) = some r := hf
            cases hsv : s.servers.find? (fun sv => sv.id = c.serverId) with
            | none => rw [hsv] at hf'; exact absurd hf' (by simp)
            | some sv =>
              rw [hsv] at hf'
              have hr := Option.some.inj hf'
              subst hr
              exact ⟨hq, hm, hsub, hch, hsv⟩
        · rw [if_neg hsub] at hf
          exact absurd hf (by simp)
      · rintro ⟨_, hm, hsub, hch, hsv⟩
        refine ⟨r.message, hm, ?_⟩
        rw [if_pos hsub, hch]
        show (match s.servers.find? (fun sv => sv.id = r.channel.serverId) with
          | some sv => some (⟨r.message, r.channel, sv⟩ : SearchResult)
          | none => none) = some r
        rw [hsv]
  · by_cases hq : (jsTrim (s.searchQuery.data.map Char.toLower)).isEmpty = true
    · rw [getSearchResults, if_pos hq]
      exact List.Pairwise.nil
    · rw [getSearchResults, if_neg hq]
      exact (pairwise_sortBy htr hto _).imp (fun h => of_decide_eq_true h)

/-- Witness for C6: a whitespace query returns nothing, and a query `"HI "`
finds the one matching message paired with its channel and server. -/
theorem getSearchResults_spec_witness :
    getSearchResults (AppState.mk [] [] [⟨"m1", "c1", "hi", 0, none, none, none, none⟩]
      none none "   ") = [] ∧
    (⟨⟨"m1", "c1", "say hi there", 7, none, none, none, none⟩,
      ⟨"c1", "s1", "general", 0⟩, ⟨"s1", "A", none, 0⟩⟩ : SearchResult) ∈
      getSearchResults (AppState.mk [⟨"s1", "A", none, 0⟩] [⟨"c1", "s1", "general", 0⟩]
        [⟨"m1", "c1", "say hi there", 7, none, none, none, none⟩]
        none none "HI ") := by
  constructor
  · exact (getSearchResults_spec _).1 (by decide)
  · exact ((getSearchResults_spec _).2.1 _).mpr
      ⟨by decide, by decide, by decide, by decide, by decide⟩

/-- C7: `getPinnedMessages` returns exactly the pinned messages of the
selected channel, sorted ascending by creation time, while
`getBookmarkedMessages` returns exactly the bookmarked messages of every
channel, sorted descending by creation time. -/
theorem pinned_bookmarked_spec (s : AppState) :
    (∀ m, m ∈ getPinnedMessages s ↔
      m ∈ s.messages ∧ m.isPinned.getD false = true ∧
        s.selectedChannelId = some m.channelId) ∧
    (getPinnedMessages s).Pairwise (fun a b => a.createdAt ≤ b.createdAt) ∧
    (∀ m, m ∈ getBookmarkedMessages s ↔
      m ∈ s.messages ∧ m.isBookmarked.getD false = true) ∧
    (getBookmarkedMessages s).Pairwise (fun a b => b.createdAt ≤ a.createdAt) := by
  refine ⟨?_, ?_, ?_, ?_⟩
  · intro m
    rw [getPinnedMessages, mem_sortBy, List.mem_filter]
    simp [Bool.and_eq_true, and_assoc]
  · refine (pairwise_sortBy ?_ ?_ _).imp (fun h => of_decide_eq_true h)
    · intro a b c h1 h2
      exact decide_eq_true_eq.mpr
        (Nat.le_trans (of_decide_eq_true h1) (of_decide_eq_true h2))
    · intro a b
      rcases Nat.le_total a.createdAt b.createdAt with h | h
      · exact Or.inl (decide_eq_true_eq.mpr h)
      · exact Or.inr (decide_eq_true_eq.mpr h)
  · intro m
    rw [getBookmarkedMessages, mem_sortBy, List.mem_filter]
  · refine (pairwise_sortBy ?_ ?_ _).imp (fun h => of_decide_eq_true h)
    · intro a b c h1 h2
      exact decide_eq_true_eq.mpr
        (Nat.le_trans (of_decide_eq_true h2) (of_decide_eq_true h1))
    · intro a b
      rcases Nat.le_total b.createdAt a.createdAt with h | h
      · exact Or.inl (decide_eq_true_eq.mpr h)
      · exact Or.inr (decide_eq_true_eq.mpr h)

/-- Witness for C7: with channel `"c1"` selected, the pinned message of
`"c1"` is listed and a bookmarked message of another channel is listed
globally. -/
theorem pinned_bookmarked_spec_witness :
    (⟨"m1", "c1", "a", 1, none, none, some true, none⟩ : Message) ∈
      getPinnedMessages (AppState.mk [] []
        [⟨"m1", "c1", "a", 1, none, none, some true, none⟩,
         ⟨"m2", "c2", "b", 2, none, none, none, some true⟩]
        none (some "c1") "") ∧
    (⟨"m2", "c2", "b", 2, none, none, none, some true⟩ : Message) ∈
      getBookmarkedMessages (AppState.mk [] []
        [⟨"m1", "c1", "a", 1, none, none, some true, none⟩,
         ⟨"m2", "c2", "b", 2, none, none, none, some true⟩]
        none (some "c1") "") := by
  constructor
  · exact ((pinned_bookmarked_spec _).1 _).mpr ⟨by decide, by decide, by decide⟩
  · exact ((pinned_bookmarked_spec _).2.2.1 _).mpr ⟨by decide, by decide⟩

/-- Counterexample to C8 as stated: take a `JSON.parse` that throws on the
stored payload (`parse = fun _ => none`) and any serializer (here
`fun _ => ""`).  `loadData` then returns the seeded default, but storage
still holds the unreadable payload `"not json"` — the default snapshot was
*not* persisted before returning (the catch branch of `loadData` has no
`saveData` call). -/
theorem loadData_counterexample :
    (loadData (fun _ => none) (fun _ => "") 0 (some "not json")).1 = getDefaultData 0 ∧
    (loadData (fun _ => none) (fun _ => "") 0 (some "not json")).2 = some "not json" ∧
    (loadData (fun _ => none) (fun _ => "") 0 (some "not json")).2
      ≠ some ((fun (_ : StorageData) => "") (getDefaultData 0)) := by
  refine ⟨rfl, rfl, by decide⟩

/-- C8 (amended): `loadData` (over an arbitrary external `JSON.parse`,
modelled by `parse`, with `none` for a throw, and serializer `ser`) is total
— it never propagates an error — and: with no stored snapshot it
synthesizes the seeded default (one default server, one default channel,
one welcome message) and immediately persists it; with a stored payload on
which parsing throws it returns the seeded default *without* persisting it,
leaving the unreadable payload in storage; with a readable payload of the
current version it returns it as-is, leaving storage untouched; with a
readable payload of an older version it stamps the current version,
persists and returns the stamped snapshot. -/
theorem loadData_spec (parse : String → Option StorageData) (ser : StorageData → String)
    (now : Nat) :
    (loadData parse ser now none
      = (getDefaultData now, some (ser (getDefaultData now)))) ∧
    (∀ raw, parse raw = none →
      loadData parse ser now (some raw) = (getDefaultData now, some raw)) ∧
    (∀ raw d, parse raw = some d → versionLt d = false →
      loadData parse ser now (some raw) = (d, some raw)) ∧
    (∀ raw d, parse raw = some d → versionLt d = true →
      loadData parse ser now (some raw)
        = ({ d with version := some 1 }, some (ser { d with version := some 1 }))) := by
  refine ⟨rfl, ?_, ?_, ?_⟩
  · intro raw h
    simp [loadData, h]
  · intro raw d h hv
    simp [loadData, h, hv]
  · intro raw d h hv
    simp [loadData, h, hv]

/-- Witness for C8 (amended): a readable current-version payload is
returned unchanged with storage untouched, and a throwing parse yields the
default without a write. -/
theorem loadData_spec_witness :
    loadData (fun _ => some (getDefaultData 5)) (fun _ => "S") 0 (some "raw")
      = (getDefaultData 5, some "raw") ∧
    loadData (fun _ => none) (fun _ => "S") 7 (some "bad")
      = (getDefaultData 7, some "bad") := by
  constructor
  · exact (loadData_spec _ _ 0).2.2.1 "raw" (getDefaultData 5) rfl (by decide)
  · exact (loadData_spec _ _ 7).2.1 "bad" rfl

/-- C9: `importData` (over an arbitrary external `JSON.parse` and
serializer) rejects and leaves the storage slot unchanged when parsing the
file content throws or when any of the three collection properties is
absent; when all three are present it persists the parsed snapshot and
resolves with it — for *any* such snapshot, with no deeper validation of
ids or references. -/
theorem importData_spec (parse : String → Option StorageData) (ser : StorageData → String)
    (content : String) (slot : Option String) :
    (parse content = none →
      importData parse ser content slot = (Except.error (), slot)) ∧
    (∀ d, parse content = some d →
      (d.servers.isSome && d.channels.isSome && d.messages.isSome) = false →
      importData parse ser content slot = (Except.error (), slot)) ∧
    (∀ d, parse content = some d →
      d.servers.isSome = true → d.channels.isSome = true → d.messages.isSome = true →
      importData parse ser content slot = (Except.ok d, some (ser d))) := by
  refine ⟨?_, ?_, ?_⟩
  · intro h
    simp [importData, h]
  · intro d h hmiss
    simp [importData, h, hmiss]
  · intro d h h1 h2 h3
    simp [importData, h, h1, h2, h3]

/-- Witness for C9: a payload missing `messages` is rejected with storage
unchanged; a structurally complete payload (even with dangling references —
here a channel pointing at a nonexistent server) is persisted and
resolved. -/
theorem importData_spec_witness :
    importData (fun _ => some ⟨some [], some [], none, none⟩) (fun _ => "S") "f" (some "old")
      = (Except.error (), some "old") ∧
    importData (fun _ => some ⟨some [], some [⟨"c1", "ghost", "g", 0⟩], some [], none⟩)
        (fun _ => "S") "f" (some "old")
      = (Except.ok ⟨some [], some [⟨"c1", "ghost", "g", 0⟩], some [], none⟩, some "S") := by
  constructor
  · exact (importData_spec _ _ "f" (some "old")).2.1 _ rfl (by decide)
  · exact (importData_spec _ _ "f" (some "old")).2.2 _ rfl (by decide) (by decide) (by decide)

/-- C10: `hasTags` is not a deterministic function of its argument: the
module-level `TAG_REGEX` carries its `lastIndex` between calls, so on the
content `"#a"` (a single tag token) a first call (from the initial
`lastIndex = 0`) returns `true` and leaves `lastIndex = 2`, and the
immediately following call on the very same content returns `false`
(resetting `lastIndex` to 0). -/
theorem hasTags_stateful :
    (hasTags "#a" 0).1 = true ∧ (hasTags "#a" (hasTags "#a" 0).2).1 = false ∧
    (hasTags "#a" 0).2 = 2 ∧ (hasTags "#a" (hasTags "#a" 0).2).2 = 0 := by decide

